import Mathlib

/-!
Shallow embedding of the Telecom-Dashboard analytics script (src/app.py).

Tables are lists of rows.  Categorical CSV values (customer identifiers,
segments, regions, issue categories, offer types) are abstracted to `Nat`
codes; this keeps grouping (equality) and pandas' sorted group keys (a
total order on the codes) while staying kernel-computable.  Timestamps are
abstracted to a month index (`Date.monthIdx`, the value of
`dt.to_period("M").dt.to_timestamp()`) plus a day; the billing `Month`
column, parsed from "YYYY-MM", is a bare month index.  Money and resolution
times are rationals, so pandas' `sum` / `mean` are exact.  `sort_values`
is modelled as a sort by `Month` (pandas' default kind is an unstable
quicksort, so no theorem below relies on the relative order of rows with
equal months), and `groupby(...).tail(1)` as keeping the last row of each
key in the current row order, exactly as pandas does.
-/

namespace Telecom

/-- A calendar timestamp, abstracted to its month index and day of month. -/
structure Date where
  monthIdx : Nat
  day : Nat
deriving DecidableEq, Repr

/-- One row of `customer_master_data.csv` (CustomerID, Segment, Region,
JoinDate, TerminationDate; the last is nullable). -/
structure CustomerRow where
  customerID : Nat
  segment : Nat
  region : Nat
  joinDate : Date
  terminationDate : Option Date
deriving DecidableEq, Repr

/-- One row of `billing_data.csv` after line 23 parsed `Month` ("YYYY-MM")
into a month timestamp. -/
structure BillingRow where
  customerID : Nat
  month : Nat
  amount : ℚ
deriving DecidableEq, Repr

/-- One row of `offer_campaign_data.csv`. -/
structure OfferRow where
  targetSegment : Nat
  offerType : Nat
  redemptionRate : ℚ
deriving DecidableEq, Repr

/-- One row of `customer_support_data.csv`. -/
structure SupportRow where
  customerID : Nat
  contactDate : Date
  issueCategory : Nat
  resolutionTime : ℚ
deriving DecidableEq, Repr

/-- Line 20: `customer["Churn"] = customer["TerminationDate"].notna().astype(int)`. -/
def churn (c : CustomerRow) : Nat :=
  if c.terminationDate.isSome then 1 else 0

/-- Insert `a` in front of the first element `b` with `le a b`. -/
def orderedInsertBy (le : α → α → Bool) (a : α) : List α → List α
  | [] => [a]
  | b :: l => if le a b then a :: b :: l else b :: orderedInsertBy le a l

/-- Insertion sort by `le`: the model of `sort_values` and of the
ascending key order of `groupby(sort=True)`.  pandas' default sort kind
is not stable, so nothing proved below depends on how this sort orders
`le`-equivalent elements. -/
def sortBy (le : α → α → Bool) : List α → List α
  | [] => []
  | a :: l => orderedInsertBy le a (sortBy le l)

/-- Ascending order on `Nat` group keys. -/
def natLe (a b : Nat) : Bool := decide (a ≤ b)

/-- Distinct keys of a key column, sorted ascending, as
`groupby(sort=True)` enumerates the groups. -/
def groupKeys (keys : List Nat) : List Nat := sortBy natLe keys.dedup

/-- Lexicographic order on `(month, segment)` group-key pairs. -/
def keyLe2 (a b : Nat × Nat) : Bool :=
  if a.1 < b.1 then true else if b.1 < a.1 then false else decide (a.2 ≤ b.2)

/-- Distinct `(month, segment)` keys, sorted lexicographically. -/
def groupKeys2 (keys : List (Nat × Nat)) : List (Nat × Nat) :=
  sortBy keyLe2 keys.dedup

/-- `groupby(key).tail(1)`: of each key's rows keep the one occurring last,
in the frame's current row order. -/
def tailOnePerKey (key : α → Nat) : List α → List α
  | [] => []
  | r :: rs =>
    if rs.any (fun x => key x == key r) then tailOnePerKey key rs
    else r :: tailOnePerKey key rs

/-- One row of the churn-trend table (lines 29-35). -/
structure ChurnTrendRow where
  terminationMonth : Nat
  segment : Nat
  churnCount : Nat
deriving DecidableEq, Repr

/-- The `(month, segment)` key of each row that survives the
`Churn == 1` filter and `dropna(subset=["TerminationDate"])`. -/
def churnKeys (customer : List CustomerRow) : List (Nat × Nat) :=
  ((customer.filter (fun c => churn c == 1)).filter
      (fun c => c.terminationDate.isSome)).filterMap
    (fun c => c.terminationDate.map (fun d => (d.monthIdx, c.segment)))

/-- Lines 29-35: filter to churned customers, drop null termination dates,
group by (termination month, segment), `size()`. -/
def churn_trend (customer : List CustomerRow) : List ChurnTrendRow :=
  (groupKeys2 (churnKeys customer)).map
    (fun k => ⟨k.1, k.2, (churnKeys customer).count k⟩)

/-- One row of `billing_merged` (line 26): the billing columns plus the
matched customer's columns, which are null when no customer matched. -/
structure BillingMergedRow where
  bill : BillingRow
  cust : Option CustomerRow
deriving DecidableEq, Repr

/-- Line 26: `pd.merge(billing, customer, on="CustomerID", how="left")`. -/
def billingMerge (billing : List BillingRow) (customer : List CustomerRow) :
    List BillingMergedRow :=
  match billing with
  | [] => []
  | b :: bs =>
    (if (customer.filter (fun c => c.customerID == b.customerID)).isEmpty
     then [⟨b, none⟩]
     else (customer.filter (fun c => c.customerID == b.customerID)).map
       (fun c => ⟨b, some c⟩)) ++
      billingMerge bs customer

/-- The test `billing_merged["Churn"] == 1`: false on the null (unmatched)
rows, as a pandas NaN comparison is. -/
def churnIsOne (r : BillingMergedRow) : Bool :=
  match r.cust with
  | none => false
  | some c => churn c == 1

/-- Row order used by `sort_values("Month")` on `billing_merged`. -/
def monthLeRow (a b : BillingMergedRow) : Bool :=
  decide (a.bill.month ≤ b.bill.month)

/-- Lines 38-43: filter `billing_merged` to churned customers, sort by
`Month`, and keep each customer's last row. -/
def last_bills (bm : List BillingMergedRow) : List BillingMergedRow :=
  tailOnePerKey (fun r => r.bill.customerID)
    (sortBy monthLeRow (bm.filter churnIsOne))

/-- Line 100: `last_bills['Amount'].sum()`, the Total Revenue at Risk metric. -/
def totalRevenueAtRisk (bm : List BillingMergedRow) : ℚ :=
  ((last_bills bm).map (fun r => r.bill.amount)).sum

/-- One row of `support_agg` (lines 46-49). -/
structure SupportAggRow where
  customerID : Nat
  numComplaints : Nat
  avgResolutionTime : ℚ
deriving DecidableEq, Repr

/-- Lines 46-49: group support tickets by customer;
`NumComplaints = count(IssueCategory)`, `AvgResolutionTime = mean(ResolutionTime)`. -/
def support_agg (support : List SupportRow) : List SupportAggRow :=
  (groupKeys (support.map (fun s => s.customerID))).map (fun k =>
    let g := support.filter (fun s => s.customerID == k)
    ⟨k, g.length, ((g.map (fun s => s.resolutionTime)).sum) / (g.length : ℚ)⟩)

/-- One row of `merged_support`: the customer columns plus the matched
aggregate columns, null when the customer has no tickets (lines 51-53
then fill the nulls with 0). -/
structure MergedSupportRow where
  cust : CustomerRow
  numComplaints : Option Nat
  avgResolutionTime : Option ℚ
deriving DecidableEq, Repr

/-- Line 51: `pd.merge(customer, support_agg, on="CustomerID", how="left")`. -/
def mergedSupportRaw (customer : List CustomerRow) (sa : List SupportAggRow) :
    List MergedSupportRow :=
  match customer with
  | [] => []
  | c :: cs =>
    (if (sa.filter (fun s => s.customerID == c.customerID)).isEmpty
     then [⟨c, none, none⟩]
     else (sa.filter (fun s => s.customerID == c.customerID)).map
       (fun s => ⟨c, some s.numComplaints, some s.avgResolutionTime⟩)) ++
      mergedSupportRaw cs sa

/-- Line 52: `merged_support["AvgResolutionTime"].fillna(0)`. -/
def fillAvgResolution (rows : List MergedSupportRow) : List MergedSupportRow :=
  rows.map (fun r => { r with avgResolutionTime := some (r.avgResolutionTime.getD 0) })

/-- Line 53: `merged_support["NumComplaints"].fillna(0)`. -/
def fillNumComplaints (rows : List MergedSupportRow) : List MergedSupportRow :=
  rows.map (fun r => { r with numComplaints := some (r.numComplaints.getD 0) })

/-- Lines 51-53 composed. -/
def merged_support (customer : List CustomerRow) (support : List SupportRow) :
    List MergedSupportRow :=
  fillNumComplaints (fillAvgResolution
    (mergedSupportRaw customer (support_agg support)))

/-- One row of `region_churn` (line 128). -/
structure RegionChurnRow where
  region : Nat
  churnRate : ℚ
deriving DecidableEq, Repr

/-- Line 128: `customer.groupby("Region")["Churn"].mean()`. -/
def region_churn (customer : List CustomerRow) : List RegionChurnRow :=
  (groupKeys (customer.map (fun c => c.region))).map (fun rg =>
    let g := customer.filter (fun c => c.region == rg)
    ⟨rg, ((g.map (fun c => (churn c : ℚ))).sum) / (g.length : ℚ)⟩)

/-- One rendered chart panel (tabs 1-5 of the UI). -/
inductive Panel where
  | churnTrendPanel (rows : List ChurnTrendRow) : Panel
  | revenuePanel (rows : List BillingMergedRow) (total : ℚ) : Panel
  | offerPanel (rows : List OfferRow) : Panel
  | regionPanel (rows : List RegionChurnRow) : Panel
  | supportPanel (rows : List MergedSupportRow) : Panel
deriving DecidableEq, Repr

/-- The control flow of the module-level script: the aggregation passes of
lines 29-53 run sequentially before any tab is drawn, with no per-pass
isolation (errors are `Except.error` with a `Nat` error code); tabs 1-3
render, tab 4 computes `region_churn` inline (line 128), then tab 5
renders.  The result is the list of panels actually drawn, paired with the
error that aborted the script, if any. -/
def appScript (ctE : Except Nat (List ChurnTrendRow))
    (lbE : Except Nat (List BillingMergedRow))
    (msE : Except Nat (List MergedSupportRow))
    (rcE : Except Nat (List RegionChurnRow))
    (offers : List OfferRow) : List Panel × Option Nat :=
  match ctE with
  | .error e => ([], some e)
  | .ok ct =>
    match lbE with
    | .error e => ([], some e)
    | .ok lb =>
      match msE with
      | .error e => ([], some e)
      | .ok ms =>
        match rcE with
        | .error e =>
          ([.churnTrendPanel ct,
            .revenuePanel lb ((lb.map (fun r => r.bill.amount)).sum),
            .offerPanel offers], some e)
        | .ok rc =>
          ([.churnTrendPanel ct,
            .revenuePanel lb ((lb.map (fun r => r.bill.amount)).sum),
            .offerPanel offers, .regionPanel rc, .supportPanel ms], none)

/-- The shared source tables as they stand when the aggregation passes
start (after lines 17-26). -/
structure Tables where
  customer : List CustomerRow
  billing : List BillingRow
  billing_merged : List BillingMergedRow
  offers : List OfferRow
  support : List SupportRow
deriving DecidableEq, Repr

/-- The outputs of the aggregation passes. -/
structure PassOutputs where
  churnTrendOut : List ChurnTrendRow
  lastBillsOut : List BillingMergedRow
  supportAggOut : List SupportAggRow
  mergedSupportOut : List MergedSupportRow
  regionChurnOut : List RegionChurnRow
deriving DecidableEq, Repr

/-- The aggregation passes as the script runs them, statement by statement
(lines 29-35, 38-43, 46-49, 51, 52, 53, 128), threading the shared tables:
each statement reads the tables or an earlier local and binds a new local;
none writes a shared table. -/
def passesBlock (t : Tables) : Tables × PassOutputs :=
  let ct := churn_trend t.customer
  let lb := last_bills t.billing_merged
  let sa := support_agg t.support
  let ms0 := mergedSupportRaw t.customer sa
  let ms1 := fillAvgResolution ms0
  let ms2 := fillNumComplaints ms1
  let rc := region_churn t.customer
  (t, ⟨ct, lb, sa, ms2, rc⟩)

/-! ### Concrete tables for witnesses and counterexamples -/

/-- A churned customer (id 1). -/
def wChurned : CustomerRow := ⟨1, 0, 0, ⟨240, 1⟩, some ⟨245, 15⟩⟩

/-- An active customer (id 2). -/
def wActive : CustomerRow := ⟨2, 1, 0, ⟨241, 2⟩, none⟩

/-- A two-customer master table. -/
def wCustomer : List CustomerRow := [wChurned, wActive]

/-- Bills for customer 1: two in month 243 (amounts 7 and 9, in this file
order) and one in month 242 (amount 5); one bill for customer 2. -/
def wBilling : List BillingRow :=
  [⟨1, 243, 7⟩, ⟨1, 242, 5⟩, ⟨1, 243, 9⟩, ⟨2, 243, 4⟩]

/-- A ticket for customer 1 whose resolution time is zero. -/
def wTicket : SupportRow := ⟨1, ⟨244, 2⟩, 3, 0⟩

/-- One ticket for customer 1 whose resolution time is zero. -/
def wSupport : List SupportRow := [wTicket]

/-- A ticket whose customer id (7) occurs in no customer row. -/
def wOrphanTicket : SupportRow := ⟨7, ⟨244, 3⟩, 2, 4⟩

/-- A support table holding only the orphan ticket. -/
def wOrphanSupport : List SupportRow := [wOrphanTicket]

end Telecom

namespace Telecom

/-! ### Sorting lemmas -/

theorem orderedInsertBy_perm (le : α → α → Bool) (a : α) (l : List α) :
    (orderedInsertBy le a l).Perm (a :: l) := by
  induction l with
  | nil => exact List.Perm.refl _
  | cons b t ih =>
    rw [orderedInsertBy]
    split
    · exact List.Perm.refl _
    · exact (ih.cons b).trans (List.Perm.swap a b t)

theorem sortBy_perm (le : α → α → Bool) (l : List α) :
    (sortBy le l).Perm l := by
  induction l with
  | nil => exact List.Perm.refl _
  | cons a t ih => exact (orderedInsertBy_perm le a _).trans (ih.cons a)

theorem mem_orderedInsertBy {le : α → α → Bool} {a x : α} {l : List α} :
    x ∈ orderedInsertBy le a l ↔ x = a ∨ x ∈ l := by
  rw [(orderedInsertBy_perm le a l).mem_iff, List.mem_cons]

theorem pairwise_orderedInsertBy {le : α → α → Bool}
    (htot : ∀ a b, le a b = false → le b a = true)
    (htrans : ∀ a b c, le a b = true → le b c = true → le a c = true)
    (a : α) {l : List α} (h : l.Pairwise (fun x y => le x y = true)) :
    (orderedInsertBy le a l).Pairwise (fun x y => le x y = true) := by
  induction l with
  | nil => simp [orderedInsertBy]
  | cons b t ih =>
    rw [List.pairwise_cons] at h
    rw [orderedInsertBy]
    by_cases hab : le a b = true
    · rw [if_pos hab, List.pairwise_cons]
      refine ⟨?_, List.pairwise_cons.mpr h⟩
      intro x hx
      rcases List.mem_cons.mp hx with rfl | hx
      · exact hab
      · exact htrans a b x hab (h.1 x hx)
    · rw [if_neg hab, List.pairwise_cons]
      refine ⟨?_, ih h.2⟩
      intro x hx
      rcases mem_orderedInsertBy.mp hx with rfl | hx
      · exact htot x b (Bool.not_eq_true _ ▸ hab)
      · exact h.1 x hx

theorem pairwise_sortBy {le : α → α → Bool}
    (htot : ∀ a b, le a b = false → le b a = true)
    (htrans : ∀ a b c, le a b = true → le b c = true → le a c = true)
    (l : List α) :
    (sortBy le l).Pairwise (fun x y => le x y = true) := by
  induction l with
  | nil => simp [sortBy]
  | cons a t ih => exact pairwise_orderedInsertBy htot htrans a ih

theorem mem_groupKeys {keys : List Nat} {k : Nat} :
    k ∈ groupKeys keys ↔ k ∈ keys := by
  rw [groupKeys, (sortBy_perm natLe keys.dedup).mem_iff, List.mem_dedup]

theorem nodup_groupKeys (keys : List Nat) : (groupKeys keys).Nodup :=
  ((sortBy_perm natLe keys.dedup).nodup_iff).mpr keys.nodup_dedup

theorem mem_groupKeys2 {keys : List (Nat × Nat)} {k : Nat × Nat} :
    k ∈ groupKeys2 keys ↔ k ∈ keys := by
  rw [groupKeys2, (sortBy_perm keyLe2 keys.dedup).mem_iff, List.mem_dedup]

theorem keyLe2_total (a b : Nat × Nat) (h : keyLe2 a b = false) :
    keyLe2 b a = true := by
  unfold keyLe2 at *
  split at h <;> split_ifs <;> simp_all <;> omega

theorem keyLe2_trans (a b c : Nat × Nat) (h1 : keyLe2 a b = true)
    (h2 : keyLe2 b c = true) : keyLe2 a c = true := by
  unfold keyLe2 at *
  split_ifs at h1 h2 ⊢ <;> simp_all <;> omega

theorem monthLeRow_total (a b : BillingMergedRow) (h : monthLeRow a b = false) :
    monthLeRow b a = true := by
  unfold monthLeRow at *
  simp at *
  omega

theorem monthLeRow_trans (a b c : BillingMergedRow) (h1 : monthLeRow a b = true)
    (h2 : monthLeRow b c = true) : monthLeRow a c = true := by
  unfold monthLeRow at *
  simp at *
  omega

/-! ### Claim C6: the churn flag -/

/-- Claim C6: after line 20 computes the churn flag, a customer row has
`churn` equal to 1 exactly when its termination date is non-null and 0
exactly when it is null; no row has flag 1 together with a null
termination date. -/
theorem claim_c6_churn_flag (c : CustomerRow) :
    (churn c = 1 ↔ c.terminationDate ≠ none) ∧
    (churn c = 0 ↔ c.terminationDate = none) ∧
    ¬(churn c = 1 ∧ c.terminationDate = none) := by
  cases h : c.terminationDate <;> simp [churn, h]

/-! ### Claim C7: the churn trend is sorted by month -/

/-- Claim C7: the churn-trend table of lines 29-35 is sorted by truncated
termination month in ascending order (the month components of consecutive
rows are nondecreasing). -/
theorem claim_c7_churn_trend_sorted (customer : List CustomerRow) :
    (churn_trend customer).Pairwise
      (fun r1 r2 => r1.terminationMonth ≤ r2.terminationMonth) := by
  have hp : (groupKeys2 (churnKeys customer)).Pairwise
      (fun x y => keyLe2 x y = true) :=
    pairwise_sortBy keyLe2_total keyLe2_trans _
  refine List.Pairwise.map _ ?_ hp
  intro a b hab
  unfold keyLe2 at hab
  split_ifs at hab <;> simp_all <;> omega

/-! ### Claim C3: churn-trend counts sum to the churned-customer count -/

theorem length_filterMap_of_isSome (l : List CustomerRow)
    (h : ∀ c ∈ l, c.terminationDate.isSome) :
    (l.filterMap
        (fun c => c.terminationDate.map (fun d => (d.monthIdx, c.segment)))).length
      = l.length := by
  induction l with
  | nil => rfl
  | cons c t ih =>
    have hc := h c (List.mem_cons_self c t)
    cases hd : c.terminationDate with
    | none => rw [hd] at hc; simp at hc
    | some d =>
      simp [List.filterMap_cons, hd,
        ih (fun x hx => h x (List.mem_cons_of_mem c hx))]

theorem filter_churn_filter_isSome (customer : List CustomerRow) :
    (customer.filter (fun c => churn c == 1)).filter
        (fun c => c.terminationDate.isSome)
      = customer.filter (fun c => c.terminationDate.isSome) := by
  rw [List.filter_filter]
  apply List.filter_congr
  intro c _
  cases h : c.terminationDate <;> simp [churn, h]

theorem churnKeys_length (customer : List CustomerRow) :
    (churnKeys customer).length
      = (customer.filter (fun c => c.terminationDate.isSome)).length := by
  unfold churnKeys
  rw [filter_churn_filter_isSome]
  apply length_filterMap_of_isSome
  intro c hc
  exact (List.mem_filter.mp hc).2

/-- Claim C3: summing `ChurnCount` over all (month, segment) buckets of the
churn-trend table yields the number of customers whose termination date is
non-null. -/
theorem claim_c3_churn_trend_total (customer : List CustomerRow) :
    ((churn_trend customer).map (fun r => r.churnCount)).sum
      = (customer.filter (fun c => c.terminationDate.isSome)).length := by
  unfold churn_trend
  rw [List.map_map]
  have h2 : ((groupKeys2 (churnKeys customer)).map
        (fun k => (churnKeys customer).count k)).sum
      = (((churnKeys customer).dedup).map
        (fun k => (churnKeys customer).count k)).sum :=
    ((sortBy_perm keyLe2 (churnKeys customer).dedup).map _).sum_eq
  have hcount : ∀ k : Nat × Nat,
      @List.count _ instBEqProd k (churnKeys customer)
        = @List.count _ instBEqOfDecidableEq k (churnKeys customer) := by
    intro k
    obtain ⟨k1, k2⟩ := k
    unfold List.count
    apply List.countP_congr
    intro x _
    obtain ⟨x1, x2⟩ := x
    rcases Decidable.em ((x1, x2) = (k1, k2)) with h | h <;>
      simp_all [instBEqProd, instBEqOfDecidableEq, Prod.ext_iff]
  calc ((groupKeys2 (churnKeys customer)).map
          ((fun r => r.churnCount) ∘
            (fun k => (⟨k.1, k.2, (churnKeys customer).count k⟩ : ChurnTrendRow)))).sum
      = ((groupKeys2 (churnKeys customer)).map
          (fun k => (churnKeys customer).count k)).sum := rfl
    _ = (((churnKeys customer).dedup).map
          (fun k => (churnKeys customer).count k)).sum := h2
    _ = (churnKeys customer).length := by
          simp only [hcount]
          exact List.sum_map_count_dedup_eq_length (churnKeys customer)
    _ = (customer.filter (fun c => c.terminationDate.isSome)).length :=
          churnKeys_length customer

/-! ### getLast? and tailOnePerKey lemmas -/

theorem mem_of_getLastEq {l : List α} {x : α} (h : l.getLast? = some x) :
    x ∈ l := by
  induction l with
  | nil => simp at h
  | cons a t ih =>
    cases t with
    | nil =>
      rw [List.getLast?_singleton] at h
      simp at h
      simp [h]
    | cons b t' =>
      rw [List.getLast?_cons_cons] at h
      exact List.mem_cons_of_mem a (ih h)

theorem getLastEq_of_ne_nil {l : List α} (h : l ≠ []) :
    ∃ x, l.getLast? = some x := by
  cases l with
  | nil => exact absurd rfl h
  | cons a t => exact ⟨(a :: t).getLast (by simp), List.getLast?_eq_getLast _ _⟩

theorem getLastEq_cons_of_ne_nil {l : List α} (a : α) (h : l ≠ []) :
    (a :: l).getLast? = l.getLast? := by
  cases l with
  | nil => exact absurd rfl h
  | cons b t => rw [List.getLast?_cons_cons]

theorem pairwise_last_max {R : α → α → Prop} {l : List α} {x : α}
    (hp : l.Pairwise R) (hl : l.getLast? = some x) :
    ∀ a ∈ l, a = x ∨ R a x := by
  induction l with
  | nil => simp
  | cons b t ih =>
    cases t with
    | nil =>
      rw [List.getLast?_singleton] at hl
      simp at hl
      intro a ha
      simp at ha
      left
      rw [ha, hl]
    | cons c t' =>
      rw [List.getLast?_cons_cons] at hl
      rw [List.pairwise_cons] at hp
      intro a ha
      rcases List.mem_cons.mp ha with rfl | h
      · right
        exact hp.1 x (mem_of_getLastEq hl)
      · exact ih hp.2 hl a h

theorem mem_tailOnePerKey {key : α → Nat} {l : List α} {r : α}
    (h : r ∈ tailOnePerKey key l) : r ∈ l := by
  induction l with
  | nil => simp [tailOnePerKey] at h
  | cons a t ih =>
    rw [tailOnePerKey] at h
    split at h
    · exact List.mem_cons_of_mem a (ih h)
    · rcases List.mem_cons.mp h with rfl | h'
      · exact List.mem_cons_self _ _
      · exact List.mem_cons_of_mem a (ih h')

theorem filter_tailOnePerKey (key : α → Nat) (k : Nat) (l : List α) :
    (tailOnePerKey key l).filter (fun r => key r == k)
      = ((l.filter (fun r => key r == k)).getLast?).toList := by
  induction l with
  | nil => rfl
  | cons r rs ih =>
    rw [tailOnePerKey]
    by_cases hany : rs.any (fun x => key x == key r) = true
    · rw [if_pos hany]
      by_cases hk : key r = k
      · have hne : rs.filter (fun x => key x == k) ≠ [] := by
          rcases List.any_eq_true.mp hany with ⟨x, hx, hxk⟩
          intro hnil
          have hxk' : key x = k := (beq_iff_eq.mp hxk).trans hk
          have := List.filter_eq_nil_iff.mp hnil x hx
          simp [hxk'] at this
        rw [ih, List.filter_cons_of_pos (by simp [hk]),
          getLastEq_cons_of_ne_nil r hne]
      · rw [ih, List.filter_cons_of_neg (by simp [hk])]
    · rw [if_neg hany]
      have hnone : ∀ x ∈ rs, key x ≠ key r := by
        intro x hx hxy
        exact hany (List.any_eq_true.mpr ⟨x, hx, by simp [hxy]⟩)
      by_cases hk : key r = k
      · have hfil : rs.filter (fun x => key x == k) = [] := by
          apply List.filter_eq_nil_iff.mpr
          intro x hx
          simp only [beq_iff_eq]
          intro hxx
          exact hnone x hx (hxx.trans hk.symm)
        rw [List.filter_cons_of_pos (by simp [hk]),
          List.filter_cons_of_pos (by simp [hk]), ih, hfil]
        simp [List.getLast?_singleton]
      · rw [List.filter_cons_of_neg (by simp [hk]),
          List.filter_cons_of_neg (by simp [hk])]
        exact ih

/-! ### key-filter lemmas -/

theorem filter_key_eq_singleton {key : α → Nat} {l : List α}
    (hnd : (l.map key).Nodup) {c : α} (hc : c ∈ l) :
    l.filter (fun x => key x == key c) = [c] := by
  induction l with
  | nil => simp at hc
  | cons a t ih =>
    rw [List.map_cons, List.nodup_cons] at hnd
    rcases List.mem_cons.mp hc with rfl | hct
    · have ht : t.filter (fun x => key x == key c) = [] := by
        apply List.filter_eq_nil_iff.mpr
        intro x hx
        simp only [beq_iff_eq]
        intro hxa
        exact hnd.1 (hxa ▸ List.mem_map_of_mem key hx)
      rw [List.filter_cons_of_pos (by simp), ht]
    · have hne : key a ≠ key c := by
        intro h
        exact hnd.1 (h ▸ List.mem_map_of_mem key hct)
      rw [List.filter_cons_of_neg (by simp [hne]), ih hnd.2 hct]

theorem nodup_mem_filter_eq {l : List Nat} (hnd : l.Nodup) {k : Nat}
    (hk : k ∈ l) : l.filter (fun x => x == k) = [k] := by
  induction l with
  | nil => simp at hk
  | cons a t ih =>
    rw [List.nodup_cons] at hnd
    rcases List.mem_cons.mp hk with rfl | hkt
    · have ht : t.filter (fun x => x == k) = [] := by
        apply List.filter_eq_nil_iff.mpr
        intro x hx
        simp only [beq_iff_eq]
        intro hxa
        exact hnd.1 (hxa ▸ hx)
      rw [List.filter_cons_of_pos (by simp), ht]
    · have hne : a ≠ k := by
        intro h
        exact hnd.1 (h ▸ hkt)
      rw [List.filter_cons_of_neg (by simp [hne]), ih hnd.2 hkt]

theorem filter_key_eq_nil {key : α → Nat} {l : List α} {k : Nat}
    (hk : k ∉ l.map key) : l.filter (fun x => key x == k) = [] := by
  apply List.filter_eq_nil_iff.mpr
  intro x hx
  simp only [beq_iff_eq]
  intro h
  exact hk (h ▸ List.mem_map_of_mem key hx)

theorem filter_map_eq (f : α → β) (p : β → Bool) (l : List α) :
    (l.map f).filter p = (l.filter (fun a => p (f a))).map f := by
  induction l with
  | nil => rfl
  | cons a t ih =>
    by_cases h : p (f a) = true <;> simp [List.filter_cons, h, ih]

/-! ### billingMerge lemmas -/

theorem billingMerge_cons (b : BillingRow) (bs : List BillingRow)
    (customer : List CustomerRow) :
    billingMerge (b :: bs) customer
      = (if (customer.filter (fun c => c.customerID == b.customerID)).isEmpty
         then [⟨b, none⟩]
         else (customer.filter (fun c => c.customerID == b.customerID)).map
           (fun c => ⟨b, some c⟩)) ++ billingMerge bs customer := rfl

theorem mem_billingMerge {billing : List BillingRow} {customer : List CustomerRow}
    {r : BillingMergedRow} (h : r ∈ billingMerge billing customer) :
    r.bill ∈ billing ∧
      (r.cust = none ∨
        ∃ c ∈ customer, r.cust = some c ∧ c.customerID = r.bill.customerID) := by
  induction billing with
  | nil => simp [billingMerge] at h
  | cons b bs ih =>
    rw [billingMerge_cons] at h
    rcases List.mem_append.mp h with h1 | h2
    · split at h1
      · simp at h1
        subst h1
        exact ⟨List.mem_cons_self _ _, Or.inl rfl⟩
      · rcases List.mem_map.mp h1 with ⟨c, hcm, rfl⟩
        have hc := List.mem_filter.mp hcm
        exact ⟨List.mem_cons_self _ _,
          Or.inr ⟨c, hc.1, rfl, beq_iff_eq.mp hc.2⟩⟩
    · have := ih h2
      exact ⟨List.mem_cons_of_mem b this.1, this.2⟩

theorem billingMerge_filter_key {billing : List BillingRow}
    {customer : List CustomerRow}
    (hnd : (customer.map (fun c => c.customerID)).Nodup)
    {c : CustomerRow} (hc : c ∈ customer) :
    (billingMerge billing customer).filter
        (fun r => r.bill.customerID == c.customerID)
      = (billing.filter (fun b => b.customerID == c.customerID)).map
          (fun b => ⟨b, some c⟩) := by
  induction billing with
  | nil => rfl
  | cons b bs ih =>
    rw [billingMerge_cons, List.filter_append, ih]
    by_cases hbc : b.customerID = c.customerID
    · have hms : customer.filter (fun x => x.customerID == b.customerID) = [c] := by
        have h1 : customer.filter (fun x => x.customerID == c.customerID) = [c] :=
          @filter_key_eq_singleton CustomerRow (fun x => x.customerID) customer hnd c hc
        rw [← h1]
        apply List.filter_congr
        intro x _
        rw [hbc]
      rw [hms]
      rw [List.filter_cons_of_pos (by simp [hbc])]
      simp [List.filter, hbc]
    · rw [List.filter_cons_of_neg (by simp [hbc])]
      by_cases he :
          (customer.filter (fun x => x.customerID == b.customerID)).isEmpty = true
      · rw [if_pos he]
        have hf : (b.customerID == c.customerID) = false := by simp [hbc]
        simp [List.filter, hf]
      · rw [if_neg he]
        simp only [filter_map_eq]
        have hf : (b.customerID == c.customerID) = false := by simp [hbc]
        simp [hf]

/-! ### The last-bills characterisation behind claim C1 -/

theorem last_bills_spec (customer : List CustomerRow) (billing : List BillingRow)
    (hnd : (customer.map (fun c => c.customerID)).Nodup)
    {c : CustomerRow} (hc : c ∈ customer) (hch : churn c = 1)
    (hb : billing.filter (fun b => b.customerID == c.customerID) ≠ []) :
    ∃ b : BillingRow,
      (last_bills (billingMerge billing customer)).filter
          (fun r => r.bill.customerID == c.customerID) = [⟨b, some c⟩] ∧
      b ∈ billing.filter (fun b' => b'.customerID == c.customerID) ∧
      ∀ b' ∈ billing.filter (fun b' => b'.customerID == c.customerID),
        b'.month ≤ b.month := by
  -- the filtered merge restricted to customer c
  have hF : ((billingMerge billing customer).filter churnIsOne).filter
        (fun r => r.bill.customerID == c.customerID)
      = (billing.filter (fun b => b.customerID == c.customerID)).map
          (fun b => ⟨b, some c⟩) := by
    rw [List.filter_comm, billingMerge_filter_key hnd hc]
    simp only [filter_map_eq]
    simp [churnIsOne, hch]
  -- sorted filtered merge, restricted to customer c by permutation
  have hsperm : ((sortBy monthLeRow
        ((billingMerge billing customer).filter churnIsOne)).filter
        (fun r => r.bill.customerID == c.customerID)).Perm
      (((billingMerge billing customer).filter churnIsOne).filter
        (fun r => r.bill.customerID == c.customerID)) :=
    (sortBy_perm monthLeRow _).filter _
  have hne : (sortBy monthLeRow
        ((billingMerge billing customer).filter churnIsOne)).filter
        (fun r => r.bill.customerID == c.customerID) ≠ [] := by
    intro hnil
    have hlen := hsperm.length_eq
    rw [hnil, hF] at hlen
    have hzero : (billing.filter (fun b => b.customerID == c.customerID)).length = 0 := by
      simpa using hlen.symm
    exact hb (List.length_eq_zero.mp hzero)
  obtain ⟨x, hx⟩ := getLastEq_of_ne_nil hne
  -- the retained row is x
  have h1 : (last_bills (billingMerge billing customer)).filter
        (fun r => r.bill.customerID == c.customerID)
      = (((sortBy monthLeRow
          ((billingMerge billing customer).filter churnIsOne)).filter
          (fun r => r.bill.customerID == c.customerID)).getLast?).toList :=
    filter_tailOnePerKey (fun r : BillingMergedRow => r.bill.customerID)
      c.customerID _
  -- x comes from one of c's billing rows
  have hxmem : x ∈ (((billingMerge billing customer).filter churnIsOne).filter
      (fun r => r.bill.customerID == c.customerID)) :=
    hsperm.mem_iff.mp (mem_of_getLastEq hx)
  rw [hF] at hxmem
  obtain ⟨b, hbg, hxb⟩ := List.mem_map.mp hxmem
  -- every billing row of c has month at most x's month
  have hsorted : (sortBy monthLeRow
      ((billingMerge billing customer).filter churnIsOne)).Pairwise
      (fun r1 r2 => monthLeRow r1 r2 = true) :=
    pairwise_sortBy monthLeRow_total monthLeRow_trans _
  have hmax0 := pairwise_last_max
    (List.Pairwise.filter
      (fun r : BillingMergedRow => r.bill.customerID == c.customerID) hsorted) hx
  have hmaxg : ∀ b' ∈ billing.filter (fun b' => b'.customerID == c.customerID),
      b'.month ≤ b.month := by
    intro b' hb'
    have hmem' : (⟨b', some c⟩ : BillingMergedRow) ∈ (sortBy monthLeRow
        ((billingMerge billing customer).filter churnIsOne)).filter
        (fun r => r.bill.customerID == c.customerID) := by
      apply hsperm.mem_iff.mpr
      rw [hF]
      exact List.mem_map_of_mem _ hb'
    rcases hmax0 _ hmem' with heq | hle
    · rw [← hxb] at heq
      have : b' = b := congrArg BillingMergedRow.bill heq
      rw [this]
    · have := of_decide_eq_true hle
      rw [← hxb] at this
      exact this
  refine ⟨b, ?_, hbg, hmaxg⟩
  rw [h1, hx, ← hxb]
  rfl

/-! ### Claim C1: revenue at risk -/

/-- Claim C1: the Total Revenue at Risk metric equals the sum of `Amount`
over the `last_bills` rows, and those rows contain, for each churned
customer having at least one billing row, exactly one row, namely one of
that customer's billing rows of maximal (latest) month; every retained row
comes from a churned customer, so a churned customer with zero billing
rows contributes nothing. -/
theorem claim_c1_revenue_at_risk (customer : List CustomerRow)
    (billing : List BillingRow)
    (hnd : (customer.map (fun c => c.customerID)).Nodup) :
    (∀ c ∈ customer, churn c = 1 →
      billing.filter (fun b => b.customerID == c.customerID) ≠ [] →
      ∃ b : BillingRow,
        (last_bills (billingMerge billing customer)).filter
            (fun r => r.bill.customerID == c.customerID) = [⟨b, some c⟩] ∧
        b ∈ billing.filter (fun b' => b'.customerID == c.customerID) ∧
        ∀ b' ∈ billing.filter (fun b' => b'.customerID == c.customerID),
          b'.month ≤ b.month) ∧
    (∀ r ∈ last_bills (billingMerge billing customer),
      ∃ c ∈ customer, r.cust = some c ∧ churn c = 1 ∧ r.bill ∈ billing ∧
        r.bill.customerID = c.customerID) ∧
    totalRevenueAtRisk (billingMerge billing customer)
      = ((last_bills (billingMerge billing customer)).map
          (fun r => r.bill.amount)).sum := by
  refine ⟨?_, ?_, rfl⟩
  · intro c hc hch hb
    obtain ⟨b, h1, h2, h3⟩ := last_bills_spec customer billing hnd hc hch hb
    exact ⟨b, h1, h2, h3⟩
  · intro r hr
    have hrF : r ∈ (billingMerge billing customer).filter churnIsOne :=
      (sortBy_perm monthLeRow _).mem_iff.mp (mem_tailOnePerKey hr)
    have hrm := List.mem_filter.mp hrF
    obtain ⟨hbm, hcu⟩ := mem_billingMerge hrm.1
    cases hcr : r.cust with
    | none =>
      exfalso
      have h2 := hrm.2
      simp [churnIsOne, hcr] at h2
    | some c0 =>
      rcases hcu with hnone | ⟨c1, hc1, hsome, hid⟩
      · rw [hcr] at hnone
        simp at hnone
      · rw [hcr] at hsome
        have hcc : c0 = c1 := Option.some.inj hsome
        have hch : churn c0 = 1 := by
          have h2 := hrm.2
          simp [churnIsOne, hcr] at h2
          exact h2
        exact ⟨c1, hc1, hsome, hcc ▸ hch, hbm, hid.symm⟩

/-- Witness for claim C1 at the concrete two-customer tables. -/
theorem claim_c1_witness :
    ((wCustomer.map (fun c => c.customerID)).Nodup) ∧
    ((∀ c ∈ wCustomer, churn c = 1 →
      wBilling.filter (fun b => b.customerID == c.customerID) ≠ [] →
      ∃ b : BillingRow,
        (last_bills (billingMerge wBilling wCustomer)).filter
            (fun r => r.bill.customerID == c.customerID) = [⟨b, some c⟩] ∧
        b ∈ wBilling.filter (fun b' => b'.customerID == c.customerID) ∧
        ∀ b' ∈ wBilling.filter (fun b' => b'.customerID == c.customerID),
          b'.month ≤ b.month) ∧
    (∀ r ∈ last_bills (billingMerge wBilling wCustomer),
      ∃ c ∈ wCustomer, r.cust = some c ∧ churn c = 1 ∧ r.bill ∈ wBilling ∧
        r.bill.customerID = c.customerID) ∧
    totalRevenueAtRisk (billingMerge wBilling wCustomer)
      = ((last_bills (billingMerge wBilling wCustomer)).map
          (fun r => r.bill.amount)).sum) :=
  ⟨by decide, claim_c1_revenue_at_risk wCustomer wBilling (by decide)⟩

/-! ### support_agg and merged_support lemmas -/

theorem support_agg_filter (support : List SupportRow) (cid : Nat) :
    (support_agg support).filter (fun s => s.customerID == cid)
      = ((groupKeys (support.map (fun s => s.customerID))).filter
          (fun k => k == cid)).map (fun k =>
            (⟨k, (support.filter (fun s => s.customerID == k)).length,
              ((support.filter (fun s => s.customerID == k)).map
                (fun s => s.resolutionTime)).sum /
                ((support.filter (fun s => s.customerID == k)).length : ℚ)⟩ :
              SupportAggRow)) :=
  filter_map_eq _ _ _

theorem mem_map_key_iff_filter_ne {support : List SupportRow} {cid : Nat} :
    cid ∈ support.map (fun s => s.customerID)
      ↔ support.filter (fun s => s.customerID == cid) ≠ [] := by
  constructor
  · intro hmem hnil
    rcases List.mem_map.mp hmem with ⟨s0, hs0, hid⟩
    have := List.filter_eq_nil_iff.mp hnil s0 hs0
    simp [hid] at this
  · intro hne
    by_contra hmem
    exact hne (filter_key_eq_nil hmem)

theorem support_agg_filter_mem {support : List SupportRow} {cid : Nat}
    (hmem : cid ∈ support.map (fun s => s.customerID)) :
    (support_agg support).filter (fun s => s.customerID == cid)
      = [⟨cid, (support.filter (fun s => s.customerID == cid)).length,
          ((support.filter (fun s => s.customerID == cid)).map
            (fun s => s.resolutionTime)).sum /
            ((support.filter (fun s => s.customerID == cid)).length : ℚ)⟩] := by
  rw [support_agg_filter,
    nodup_mem_filter_eq (nodup_groupKeys _) (mem_groupKeys.mpr hmem)]
  rfl

theorem support_agg_filter_nomem {support : List SupportRow} {cid : Nat}
    (hmem : cid ∉ support.map (fun s => s.customerID)) :
    (support_agg support).filter (fun s => s.customerID == cid) = [] := by
  rw [support_agg_filter]
  have h1 : (groupKeys (support.map (fun s => s.customerID))).filter
      (fun k => k == cid) = [] := by
    apply List.filter_eq_nil_iff.mpr
    intro k hk
    simp only [beq_iff_eq]
    intro hkc
    exact hmem (hkc ▸ mem_groupKeys.mp hk)
  rw [h1, List.map_nil]

theorem mergedSupportRaw_cons (c : CustomerRow) (cs : List CustomerRow)
    (sa : List SupportAggRow) :
    mergedSupportRaw (c :: cs) sa
      = (if (sa.filter (fun s => s.customerID == c.customerID)).isEmpty
         then [⟨c, none, none⟩]
         else (sa.filter (fun s => s.customerID == c.customerID)).map
           (fun s => ⟨c, some s.numComplaints, some s.avgResolutionTime⟩)) ++
        mergedSupportRaw cs sa := rfl

/-- The whole of lines 51-53 pointwise: each customer row becomes exactly
one `merged_support` row, carrying its ticket count and mean resolution
time, or the fill value 0 for both when it has no tickets. -/
theorem merged_support_eq (customer : List CustomerRow)
    (support : List SupportRow) :
    merged_support customer support
      = customer.map (fun c =>
          if support.filter (fun s => s.customerID == c.customerID) = []
          then ⟨c, some 0, some 0⟩
          else ⟨c,
            some (support.filter (fun s => s.customerID == c.customerID)).length,
            some (((support.filter (fun s => s.customerID == c.customerID)).map
                (fun s => s.resolutionTime)).sum /
              ((support.filter (fun s => s.customerID == c.customerID)).length : ℚ))⟩) := by
  unfold merged_support
  induction customer with
  | nil => rfl
  | cons c cs ih =>
    rw [mergedSupportRaw_cons]
    unfold fillAvgResolution fillNumComplaints
    rw [List.map_append, List.map_append, List.map_cons]
    unfold fillAvgResolution fillNumComplaints at ih
    rw [ih]
    by_cases h : support.filter (fun s => s.customerID == c.customerID) = []
    · have hnomem : c.customerID ∉ support.map (fun s => s.customerID) := by
        intro hmem
        exact (mem_map_key_iff_filter_ne.mp hmem) h
      rw [support_agg_filter_nomem hnomem]
      rw [if_pos h]
      rfl
    · have hmem : c.customerID ∈ support.map (fun s => s.customerID) :=
        mem_map_key_iff_filter_ne.mpr h
      rw [support_agg_filter_mem hmem]
      rw [if_neg h]
      rfl

/-! ### Claim C2 (corrected): the support aggregate -/

/-- Counterexample to claim C2 as stated: with a single ticket whose
resolution time is 0, customer 1's merged row has `AvgResolutionTime` 0
while `NumComplaints` is 1, so "AvgResolutionTime is 0 iff NumComplaints
is 0" fails on `merged_support`. -/
theorem claim_c2_counterexample :
    ¬ ∀ r ∈ merged_support wCustomer wSupport,
        (r.avgResolutionTime = some 0 ↔ r.numComplaints = some 0) := by
  intro hall
  have hfil : wSupport.filter
      (fun s => s.customerID == wChurned.customerID) = [wTicket] := rfl
  have hmem : (⟨wChurned, some 1, some 0⟩ : MergedSupportRow)
      ∈ merged_support wCustomer wSupport := by
    rw [merged_support_eq]
    apply List.mem_map.mpr
    refine ⟨wChurned, by simp [wCustomer], ?_⟩
    rw [if_neg (by rw [hfil]; simp)]
    rw [hfil]
    simp [wTicket]
  have h2 := (hall _ hmem).mp rfl
  simp at h2

/-- Claim C2, amended: every customer of the master appears exactly once in
`merged_support` (in order); each row's `NumComplaints` is the customer's
ticket count (0 when it has none); `AvgResolutionTime` is 0 when the
customer has no tickets and otherwise is the arithmetic mean of the
customer's resolution times (which can itself be 0, so the original "0 iff
no complaints" fails). -/
theorem claim_c2_support_aggregate (customer : List CustomerRow)
    (support : List SupportRow) :
    ((merged_support customer support).map (fun r => r.cust) = customer) ∧
    ∀ r ∈ merged_support customer support,
      r.numComplaints
          = some (support.filter
              (fun s => s.customerID == r.cust.customerID)).length ∧
      (support.filter (fun s => s.customerID == r.cust.customerID) = [] →
        r.avgResolutionTime = some 0) ∧
      (support.filter (fun s => s.customerID == r.cust.customerID) ≠ [] →
        r.avgResolutionTime = some
          (((support.filter (fun s => s.customerID == r.cust.customerID)).map
              (fun s => s.resolutionTime)).sum /
            ((support.filter
              (fun s => s.customerID == r.cust.customerID)).length : ℚ))) := by
  constructor
  · rw [merged_support_eq, List.map_map]
    have hpt : ∀ c ∈ customer,
        ((fun r : MergedSupportRow => r.cust) ∘ (fun c' =>
          if support.filter (fun s => s.customerID == c'.customerID) = []
          then (⟨c', some 0, some 0⟩ : MergedSupportRow)
          else ⟨c',
            some (support.filter (fun s => s.customerID == c'.customerID)).length,
            some (((support.filter (fun s => s.customerID == c'.customerID)).map
                (fun s => s.resolutionTime)).sum /
              ((support.filter
                (fun s => s.customerID == c'.customerID)).length : ℚ))⟩)) c
          = c := by
      intro c _
      by_cases h : support.filter (fun s => s.customerID == c.customerID) = []
      · simp only [Function.comp_apply]
        rw [if_pos h]
      · simp only [Function.comp_apply]
        rw [if_neg h]
    rw [List.map_congr_left hpt]
    simp
  · intro r hr
    rw [merged_support_eq] at hr
    rcases List.mem_map.mp hr with ⟨c, hcmem, hrc⟩
    by_cases h : support.filter (fun s => s.customerID == c.customerID) = []
    · rw [if_pos h] at hrc
      subst hrc
      refine ⟨by simp [h], fun _ => rfl, fun hne => absurd h hne⟩
    · rw [if_neg h] at hrc
      subst hrc
      exact ⟨rfl, fun heq => absurd heq h, fun _ => rfl⟩

/-! ### Claim C10: orphan support tickets -/

/-- Claim C10: a support ticket whose `CustomerID` occurs in no customer
row is aggregated into `support_agg`, but the left join of the customer
table onto `support_agg` drops it: no `merged_support` row carries that
customer id, so the ticket reaches no rendered panel. -/
theorem claim_c10_orphan_tickets (customer : List CustomerRow)
    (support : List SupportRow) (s : SupportRow) (hs : s ∈ support)
    (h : s.customerID ∉ customer.map (fun c => c.customerID)) :
    (∃ row ∈ support_agg support, row.customerID = s.customerID) ∧
    ∀ r ∈ merged_support customer support,
      r.cust.customerID ≠ s.customerID := by
  constructor
  · have hk : s.customerID ∈ groupKeys (support.map (fun s' => s'.customerID)) :=
      mem_groupKeys.mpr (List.mem_map_of_mem _ hs)
    exact ⟨_, List.mem_map_of_mem _ hk, rfl⟩
  · intro r hr
    rw [merged_support_eq] at hr
    rcases List.mem_map.mp hr with ⟨c, hcmem, hrc⟩
    have hcust : r.cust = c := by
      rw [← hrc]
      split <;> rfl
    rw [hcust]
    intro heq
    exact h (heq ▸ List.mem_map_of_mem _ hcmem)

/-- Witness for claim C10: ticket id 7 occurs in no customer row. -/
theorem claim_c10_witness :
    wOrphanTicket ∈ wOrphanSupport ∧
    wOrphanTicket.customerID ∉ wCustomer.map (fun c => c.customerID) ∧
    ((∃ row ∈ support_agg wOrphanSupport,
        row.customerID = wOrphanTicket.customerID) ∧
      ∀ r ∈ merged_support wCustomer wOrphanSupport,
        r.cust.customerID ≠ wOrphanTicket.customerID) :=
  ⟨by decide, by decide,
    claim_c10_orphan_tickets wCustomer wOrphanSupport wOrphanTicket
      (by decide) (by decide)⟩

/-! ### Claim C5: the regional churn rate -/

theorem sum_churn_cast (g : List CustomerRow) :
    (g.map (fun c => (churn c : ℚ))).sum
      = ((g.filter (fun c => churn c == 1)).length : ℚ) := by
  induction g with
  | nil => simp
  | cons c t ih =>
    rw [List.map_cons, List.sum_cons, ih]
    cases hc : c.terminationDate with
    | none =>
      have h0 : churn c = 0 := by simp [churn, hc]
      rw [List.filter_cons_of_neg (by simp [h0])]
      simp [h0]
    | some d =>
      have h1 : churn c = 1 := by simp [churn, hc]
      rw [List.filter_cons_of_pos (by simp [h1])]
      rw [h1, List.length_cons]
      push_cast
      ring

/-- Claim C5: for every region occurring in the customer table, the region
churn table has exactly one row for it; its value is the churned-customer
count divided by the customer count of that region, and it lies in
`[0, 1]`. -/
theorem claim_c5_region_rate (customer : List CustomerRow) (rg : Nat)
    (h : rg ∈ customer.map (fun c => c.region)) :
    ∃ q : ℚ,
      (region_churn customer).filter (fun row => row.region == rg) = [⟨rg, q⟩] ∧
      q = (((customer.filter (fun c => c.region == rg)).filter
            (fun c => churn c == 1)).length : ℚ) /
          ((customer.filter (fun c => c.region == rg)).length : ℚ) ∧
      0 ≤ q ∧ q ≤ 1 := by
  have h1 : (region_churn customer).filter (fun row => row.region == rg)
      = ((groupKeys (customer.map (fun c => c.region))).filter
          (fun k => k == rg)).map (fun k =>
            (⟨k, ((customer.filter (fun c => c.region == k)).map
                (fun c => (churn c : ℚ))).sum /
              ((customer.filter (fun c => c.region == k)).length : ℚ)⟩ :
              RegionChurnRow)) :=
    filter_map_eq _ _ _
  rw [nodup_mem_filter_eq (nodup_groupKeys _) (mem_groupKeys.mpr h)] at h1
  have hne : customer.filter (fun c => c.region == rg) ≠ [] := by
    rcases List.mem_map.mp h with ⟨c0, hc0, hid⟩
    intro hnil
    have := List.filter_eq_nil_iff.mp hnil c0 hc0
    simp [hid] at this
  have hpos : (0 : ℚ) < ((customer.filter (fun c => c.region == rg)).length : ℚ) := by
    exact_mod_cast List.length_pos.mpr hne
  refine ⟨((customer.filter (fun c => c.region == rg)).map
      (fun c => (churn c : ℚ))).sum /
    ((customer.filter (fun c => c.region == rg)).length : ℚ), ?_, ?_, ?_, ?_⟩
  · rw [h1]
    rfl
  · rw [sum_churn_cast]
  · rw [sum_churn_cast]
    exact div_nonneg (Nat.cast_nonneg _) (Nat.cast_nonneg _)
  · rw [sum_churn_cast]
    apply div_le_one_of_le₀
    · exact_mod_cast List.length_filter_le _ _
    · exact le_of_lt hpos

/-- Witness for claim C5 at region 0 of the concrete table (one churned
customer out of two). -/
theorem claim_c5_witness :
    (0 ∈ wCustomer.map (fun c => c.region)) ∧
    ∃ q : ℚ,
      (region_churn wCustomer).filter (fun row => row.region == 0) = [⟨0, q⟩] ∧
      q = (((wCustomer.filter (fun c => c.region == 0)).filter
            (fun c => churn c == 1)).length : ℚ) /
          ((wCustomer.filter (fun c => c.region == 0)).length : ℚ) ∧
      0 ≤ q ∧ q ≤ 1 :=
  ⟨by decide, claim_c5_region_rate wCustomer 0 (by decide)⟩

/-! ### Claim C4: no per-pass error isolation -/

/-- Claim C4 is refuted by the code: the script runs the aggregation passes
sequentially at module level with no isolation, so when one pass raises
(here the support aggregation), the run aborts with no panel rendered at
all, even though earlier passes succeeded; the other panels are not
produced. -/
theorem claim_c4_no_isolation (ct : List ChurnTrendRow)
    (lb : List BillingMergedRow) (rcE : Except Nat (List RegionChurnRow))
    (offers : List OfferRow) (e : Nat) :
    appScript (Except.ok ct) (Except.ok lb) (Except.error e) rcE offers
      = ([], some e) := rfl

/-! ### Claim C8: the passes mutate no shared table -/

/-- Claim C8: running the aggregation passes leaves the five shared tables
exactly as they were, each output equals its independent recomputation
from those tables, and rerunning the passes on the resulting state
reproduces the same outputs. -/
theorem claim_c8_no_mutation (t : Tables) :
    (passesBlock t).1 = t ∧
    (passesBlock t).2 = ⟨churn_trend t.customer, last_bills t.billing_merged,
        support_agg t.support, merged_support t.customer t.support,
        region_churn t.customer⟩ ∧
    passesBlock (passesBlock t).1 = passesBlock t :=
  ⟨rfl, rfl, rfl⟩

end Telecom
